import Mathlib

/-!
Verification of the date/timestamp normalization core of the
`timestamp-microservice` repository (`src/main.rs`, function
`parse_date_or_timestamp`).

The function is embedded shallowly:
* Rust `str::parse::<i64>` is modelled by `parseI64` (sign, decimal digits,
  64-bit signed range check);
* the chrono calendar (proleptic Gregorian) is modelled with the standard
  civil-calendar day arithmetic (`daysFromCivil` / `civilFromDays`);
* `chrono::DateTime::<Utc>::from_timestamp(secs, 0)` is modelled by a range
  check against chrono's representable years `-262144 ..= 262143`; the
  `.unwrap()` in the source turns an out-of-range result into a panic, which
  the embedding records as the `RunResult.panicked` outcome;
* `chrono::NaiveDate::parse_from_str` with the ten format strings of the
  source is modelled item by item (numeric fields with the greedy
  width-limited scan, literal characters, whitespace items, `%.f`, `%z`/`%:z`
  offsets, `%Z` timezone-name skip, month / weekday names, the `Parsed` field
  collector with its range-checked setters, and the final resolution that
  keeps only the calendar date and verifies a parsed weekday);
* the `%a, %d %b %Y %H:%M:%S GMT` rendering is modelled by `formatDT` /
  `formatSecs`.
-/

namespace TimestampService

/-! ### Calendar arithmetic (proleptic Gregorian, as used by chrono) -/

/-- Leap year in the proleptic Gregorian calendar. -/
def isLeap (y : Int) : Prop :=
  (y % 4 = 0 ∧ y % 100 ≠ 0) ∨ y % 400 = 0

instance (y : Int) : Decidable (isLeap y) := by unfold isLeap; infer_instance

/-- Number of days in a month. -/
def daysInMonth (y m : Int) : Int :=
  if m = 2 then (if isLeap y then 29 else 28)
  else if m = 4 ∨ m = 6 ∨ m = 9 ∨ m = 11 then 30
  else 31

/-- A valid chrono `NaiveDate` triple (`from_ymd_opt` succeeds):
year within chrono's representable range, month 1..12, day within the month. -/
def validYmd (y m d : Int) : Prop :=
  -262144 ≤ y ∧ y ≤ 262143 ∧ 1 ≤ m ∧ m ≤ 12 ∧ 1 ≤ d ∧ d ≤ daysInMonth y m

instance (y m d : Int) : Decidable (validYmd y m d) := by
  unfold validYmd; infer_instance

/-- Days since 1970-01-01 of a civil date (standard era-based algorithm,
extensionally the day count used by chrono). -/
def daysFromCivil (y m d : Int) : Int :=
  let yy := if m ≤ 2 then y - 1 else y
  let era := yy / 400
  let yoe := yy % 400
  let mp := (m + 9) % 12
  let doy := (153 * mp + 2) / 5 + d - 1
  let doe := yoe * 365 + yoe / 4 - yoe / 100 + doy
  era * 146097 + doe - 719468

/-- Civil date of a day count since 1970-01-01 (inverse algorithm). -/
def civilFromDays (z : Int) : Int × Int × Int :=
  let z2 := z + 719468
  let era := z2 / 146097
  let doe := z2 % 146097
  let yoe := (doe - doe / 1460 + doe / 36524 - doe / 146096) / 365
  let y := yoe + era * 400
  let doy := doe - (365 * yoe + yoe / 4 - yoe / 100)
  let mp := (5 * doy + 2) / 153
  let d := doy - (153 * mp + 2) / 5 + 1
  let m := if mp < 10 then mp + 3 else mp - 9
  (if m ≤ 2 then y + 1 else y, m, d)

/-- Weekday of a day count since the epoch, `0 = Monday` (chrono encoding);
1970-01-01 is a Thursday (`3`). -/
def wdFromDays (z : Int) : Nat := ((z + 3) % 7).toNat

/-! ### Decimal digit strings -/

def digitChar (n : Nat) : Char := Char.ofNat (48 + n)

/-- ASCII digit test (Rust `u8::is_ascii_digit` / `char::to_digit(10)`). -/
def isDig (c : Char) : Bool := 48 ≤ c.toNat && c.toNat ≤ 57

/-- Decimal digits of a natural number, most significant first
(fuel-driven so that it reduces definitionally). -/
def natDigsFuel : Nat → Nat → List Char
  | 0, _ => []
  | fuel + 1, n =>
    if n < 10 then [digitChar n]
    else natDigsFuel fuel (n / 10) ++ [digitChar (n % 10)]

def natDigs (n : Nat) : List Char := natDigsFuel (n + 1) n

def natStr (n : Nat) : String := String.mk (natDigs n)

/-- The numeric value of a digit string, accumulated left to right exactly as
the scanners of Rust core / chrono do. -/
def digitsVal (ds : List Char) : Nat :=
  ds.foldl (fun a c => a * 10 + (c.toNat - 48)) 0

/-- Decimal rendering of a signed integer (`i64::to_string` shape). -/
def intToDecimal (n : Int) : String :=
  if n < 0 then "-" ++ natStr n.natAbs else natStr n.toNat

def i64Max : Int := 9223372036854775807
def i64Min : Int := -9223372036854775808

/-- A decimal field zero-padded on the left to width `w`. -/
def padDigs (w n : Nat) : List Char :=
  List.replicate (w - (natDigs n).length) '0' ++ natDigs n

/-- The canonical `YYYY-MM-DD` rendering of a date. -/
def ymdString (y m d : Int) : String :=
  String.mk (padDigs 4 y.toNat ++ '-' :: (padDigs 2 m.toNat ++ '-' :: padDigs 2 d.toNat))

/-- The mathematical value of an optionally sign-prefixed digit string. -/
def signedValue (sign ds : List Char) : Int :=
  if sign = ['-'] then -(digitsVal ds : Int) else (digitsVal ds : Int)

/-- Rust `str::parse::<i64>`: optional single sign, one or more ASCII
digits, value within the signed 64-bit range. -/
def parseI64Digits (neg : Bool) (ds : List Char) : Option Int :=
  if ds ≠ [] ∧ ds.all isDig then
    let n : Int := if neg then -(digitsVal ds : Int) else (digitsVal ds : Int)
    if i64Min ≤ n ∧ n ≤ i64Max then some n else none
  else none

def parseI64 (s : String) : Option Int :=
  match s.data with
  | [] => none
  | c :: rest =>
    if c = '+' then parseI64Digits false rest
    else if c = '-' then parseI64Digits true rest
    else parseI64Digits false (c :: rest)

/-! ### chrono scanners -/

def trimSpace (cs : List Char) : List Char := cs.dropWhile Char.isWhitespace

/-- chrono `scan::number`: consume the leading run of ASCII digits, at most
`maxW` of them; at least `minW` digits must be present and the accumulated
value must not overflow `i64`. -/
def scanNumber (minW maxW : Nat) (cs : List Char) : Option (Nat × List Char) :=
  let ds := (cs.takeWhile isDig).take maxW
  if minW ≤ ds.length ∧ (digitsVal ds : Int) ≤ i64Max then
    some (digitsVal ds, cs.drop ds.length)
  else none

/-- chrono `scan::number` with no width limit (signed year field). -/
def scanNumberAll (cs : List Char) : Option (Nat × List Char) :=
  let ds := cs.takeWhile isDig
  if 1 ≤ ds.length ∧ (digitsVal ds : Int) ≤ i64Max then
    some (digitsVal ds, cs.drop ds.length)
  else none

/-- Leading `-` / `+` of a signed numeric field. -/
def signedLead (cs : List Char) : Option (Bool × List Char) :=
  match cs with
  | [] => none
  | c :: rest =>
    if c = '-' then some (true, rest)
    else if c = '+' then some (false, rest)
    else none

def lowered (c : Char) : Char :=
  if 65 ≤ c.toNat ∧ c.toNat ≤ 90 then Char.ofNat (c.toNat + 32) else c

/-- Match a known lowercase pattern against the input, ASCII
case-insensitively; returns the rest on success. -/
def matchCI : List Char → List Char → Option (List Char)
  | [], cs => some cs
  | _ :: _, [] => none
  | p :: ps, c :: cs => if lowered c = p then matchCI ps cs else none

def findMatch : List (List Char) → Nat → List Char → Option (Nat × List Char)
  | [], _, _ => none
  | p :: ps, i, cs =>
    match matchCI p cs with
    | some rest => some (i, rest)
    | none => findMatch ps (i + 1) cs

def monthAbbrevs : List (List Char) :=
  [['j','a','n'], ['f','e','b'], ['m','a','r'], ['a','p','r'],
   ['m','a','y'], ['j','u','n'], ['j','u','l'], ['a','u','g'],
   ['s','e','p'], ['o','c','t'], ['n','o','v'], ['d','e','c']]

def monthSuffixes : List (List Char) :=
  [['u','a','r','y'], ['r','u','a','r','y'], ['c','h'], ['i','l'],
   [], ['e'], ['y'], ['u','s','t'],
   ['t','e','m','b','e','r'], ['o','b','e','r'], ['e','m','b','e','r'], ['e','m','b','e','r']]

/-- chrono `scan::short_month0` (three-letter month name, case-insensitive);
returns the zero-based month. -/
def scanShortMonth (cs : List Char) : Option (Nat × List Char) :=
  findMatch monthAbbrevs 0 cs

/-- chrono `scan::short_or_long_month0`: the abbreviation, then the rest of
the long name is consumed when it is fully present. -/
def scanLongMonth (cs : List Char) : Option (Nat × List Char) :=
  match scanShortMonth cs with
  | none => none
  | some (i, rest) =>
    match matchCI (monthSuffixes.getD i []) rest with
    | some rest2 => some (i, rest2)
    | none => some (i, rest)

def weekdayAbbrevs : List (List Char) :=
  [['m','o','n'], ['t','u','e'], ['w','e','d'], ['t','h','u'],
   ['f','r','i'], ['s','a','t'], ['s','u','n']]

/-- chrono `scan::short_weekday`; returns the weekday with `0 = Monday`. -/
def scanShortWeekday (cs : List Char) : Option (Nat × List Char) :=
  findMatch weekdayAbbrevs 0 cs

/-- Exactly two ASCII digits. -/
def scanDigit2 (cs : List Char) : Option (Nat × List Char) :=
  match cs with
  | c1 :: c2 :: rest =>
    if isDig c1 && isDig c2 then
      some ((c1.toNat - 48) * 10 + (c2.toNat - 48), rest)
    else none
  | _ => none

/-- chrono `scan::colon_or_space`: drop any run of colons and whitespace. -/
def colonOrSpace (cs : List Char) : List Char :=
  cs.dropWhile (fun c => c == ':' || c.isWhitespace)

/-- chrono `scan::timezone_offset` as used by `%z` / `%:z`: a sign (`+`, `-`,
or U+2212), two digits of hours, an optional colon/space run, two digits of
minutes; the offset in seconds. -/
def scanTzOffset (cs : List Char) : Option (Int × List Char) :=
  match trimSpace cs with
  | [] => none
  | c :: rest =>
    let sign? : Option Bool :=
      if c = '+' then some false
      else if c = '-' ∨ c = Char.ofNat 8722 then some true
      else none
    match sign? with
    | none => none
    | some neg =>
      match scanDigit2 rest with
      | none => none
      | some (h, rest2) =>
        match scanDigit2 (colonOrSpace rest2) with
        | none => none
        | some (mi, rest3) =>
          let off : Int := (h : Int) * 3600 + (mi : Int) * 60
          some (if neg then -off else off, rest3)

/-- chrono `scan::timezone_name_skip` (`%Z`): skip all non-whitespace. -/
def scanTzName (cs : List Char) : List Char :=
  cs.dropWhile (fun c => !c.isWhitespace)

/-! ### chrono `Parsed` -/

structure Parsed where
  year : Option Int := none
  month : Option Int := none
  day : Option Int := none
  hour : Option Int := none
  minute : Option Int := none
  second : Option Int := none
  nanosecond : Option Int := none
  offset : Option Int := none
  weekday : Option Nat := none
deriving DecidableEq

/-- Store a field value, failing on a conflicting earlier value. -/
def setField (old : Option Int) (v : Int) : Option (Option Int) :=
  match old with
  | none => some (some v)
  | some w => if w = v then some (some w) else none

def Parsed.setYear (p : Parsed) (v : Int) : Option Parsed :=
  if -2147483648 ≤ v ∧ v ≤ 2147483647 then
    (setField p.year v).map (fun o => { p with year := o })
  else none

def Parsed.setMonth (p : Parsed) (v : Int) : Option Parsed :=
  if 1 ≤ v ∧ v ≤ 12 then
    (setField p.month v).map (fun o => { p with month := o })
  else none

def Parsed.setDay (p : Parsed) (v : Int) : Option Parsed :=
  if 1 ≤ v ∧ v ≤ 31 then
    (setField p.day v).map (fun o => { p with day := o })
  else none

def Parsed.setHour (p : Parsed) (v : Int) : Option Parsed :=
  if 0 ≤ v ∧ v ≤ 23 then
    (setField p.hour v).map (fun o => { p with hour := o })
  else none

def Parsed.setMinute (p : Parsed) (v : Int) : Option Parsed :=
  if 0 ≤ v ∧ v ≤ 59 then
    (setField p.minute v).map (fun o => { p with minute := o })
  else none

def Parsed.setSecond (p : Parsed) (v : Int) : Option Parsed :=
  if 0 ≤ v ∧ v ≤ 60 then
    (setField p.second v).map (fun o => { p with second := o })
  else none

def Parsed.setNanosecond (p : Parsed) (v : Int) : Option Parsed :=
  if 0 ≤ v ∧ v ≤ 999999999 then
    (setField p.nanosecond v).map (fun o => { p with nanosecond := o })
  else none

def Parsed.setOffset (p : Parsed) (v : Int) : Option Parsed :=
  if -2147483648 ≤ v ∧ v ≤ 2147483647 then
    (setField p.offset v).map (fun o => { p with offset := o })
  else none

def Parsed.setWeekday (p : Parsed) (w : Nat) : Option Parsed :=
  match p.weekday with
  | none => some { p with weekday := some w }
  | some w0 => if w0 = w then some p else none

/-- chrono `Parsed::to_naive_date` on the year/month/day route: all three
fields present, `from_ymd_opt` succeeds, and a parsed weekday (if any) must
agree with the weekday of the resolved date. -/
def toNaiveDate (p : Parsed) : Option (Int × Int × Int) :=
  match p.year, p.month, p.day with
  | some y, some m, some d =>
    if validYmd y m d then
      match p.weekday with
      | some w =>
        if wdFromDays (daysFromCivil y m d) = w then some (y, m, d) else none
      | none => some (y, m, d)
    else none
  | _, _, _ => none

/-! ### Format items and the ten patterns -/

inductive Item where
  | lit (c : Char)
  | space
  | numYear
  | numMonth
  | numDay
  | numHour
  | numMinute
  | numSecond
  | nano
  | tzOffset
  | tzName
  | shortMonthName
  | longMonthName
  | shortWeekdayName
deriving DecidableEq

def nanoScale (k : Nat) : Nat := 10 ^ (9 - k)

/-- A numeric field: leading whitespace is skipped; the year field accepts a
sign with an unlimited digit run, other fields are width-limited. -/
def numField (p : Parsed) (set : Parsed → Int → Option Parsed)
    (width : Nat) (signed : Bool) (cs : List Char) : Option (Parsed × List Char) :=
  let cs := trimSpace cs
  match cond signed (signedLead cs) none with
  | some (neg, rest) =>
    match scanNumberAll rest with
    | some (v, rest2) =>
      (set p (if neg then -(v : Int) else (v : Int))).map (fun q => (q, rest2))
    | none => none
  | none =>
    match scanNumber 1 width cs with
    | some (v, rest2) => (set p (v : Int)).map (fun q => (q, rest2))
    | none => none

def stepItem (it : Item) (p : Parsed) (cs : List Char) : Option (Parsed × List Char) :=
  match it with
  | .lit c =>
    match cs with
    | c' :: rest => if c' = c then some (p, rest) else none
    | [] => none
  | .space => some (p, trimSpace cs)
  | .numYear => numField p Parsed.setYear 4 true cs
  | .numMonth => numField p Parsed.setMonth 2 false cs
  | .numDay => numField p Parsed.setDay 2 false cs
  | .numHour => numField p Parsed.setHour 2 false cs
  | .numMinute => numField p Parsed.setMinute 2 false cs
  | .numSecond => numField p Parsed.setSecond 2 false cs
  | .nano =>
    match cs with
    | '.' :: rest =>
      let ds := rest.takeWhile isDig
      if 1 ≤ ds.length then
        (p.setNanosecond ((digitsVal (ds.take 9) * nanoScale (min ds.length 9) : Nat) : Int)).map
          (fun q => (q, rest.drop ds.length))
      else none
    | _ => some (p, cs)
  | .tzOffset =>
    match scanTzOffset cs with
    | some (off, rest) => (p.setOffset off).map (fun q => (q, rest))
    | none => none
  | .tzName => some (p, scanTzName cs)
  | .shortMonthName =>
    match scanShortMonth cs with
    | some (i, rest) => (p.setMonth ((i : Int) + 1)).map (fun q => (q, rest))
    | none => none
  | .longMonthName =>
    match scanLongMonth cs with
    | some (i, rest) => (p.setMonth ((i : Int) + 1)).map (fun q => (q, rest))
    | none => none
  | .shortWeekdayName =>
    match scanShortWeekday cs with
    | some (w, rest) => (p.setWeekday w).map (fun q => (q, rest))
    | none => none

def runItems : List Item → Parsed → List Char → Option (Parsed × List Char)
  | [], p, cs => some (p, cs)
  | it :: its, p, cs =>
    match stepItem it p cs with
    | some (p2, cs2) => runItems its p2 cs2
    | none => none

/-- chrono `NaiveDate::parse_from_str`: run the items, require the whole
input consumed, then resolve the collected fields to a calendar date. -/
def parseFormat (items : List Item) (s : String) : Option (Int × Int × Int) :=
  match runItems items {} s.data with
  | some (p, []) => toNaiveDate p
  | _ => none

def fmt1 : List Item :=
  [.numYear, .lit '-', .numMonth, .lit '-', .numDay]

def fmt2 : List Item :=
  fmt1 ++ [.lit 'T', .numHour, .lit ':', .numMinute, .lit ':', .numSecond]

def fmt3 : List Item := fmt2 ++ [.nano]

def fmt4 : List Item := fmt2 ++ [.nano, .lit 'Z']

def fmt5 : List Item := fmt2 ++ [.nano, .tzOffset]

def fmt6 : List Item :=
  [.numDay, .space, .longMonthName, .space, .numYear, .lit ',', .space, .tzName]

def fmt7 : List Item :=
  [.shortWeekdayName, .space, .shortMonthName, .space, .numDay, .space, .numYear,
   .space, .numHour, .lit ':', .numMinute, .lit ':', .numSecond,
   .space, .lit 'G', .lit 'M', .lit 'T', .tzOffset]

def fmt8 : List Item :=
  [.shortWeekdayName, .space, .shortMonthName, .space, .numDay, .space, .numYear,
   .space, .numHour, .lit ':', .numMinute, .lit ':', .numSecond,
   .space, .tzOffset]

def fmt9 : List Item :=
  fmt7 ++ [.space, .lit '(', .tzName, .lit ')']

def fmt10 : List Item :=
  fmt8 ++ [.space, .lit '(', .tzName, .lit ')']

/-- The ten date patterns, in the order of the source's `or_else` chain. -/
def formats : List (List Item) :=
  [fmt1, fmt2, fmt3, fmt4, fmt5, fmt6, fmt7, fmt8, fmt9, fmt10]

def firstSome : List (Option α) → Option α
  | [] => none
  | some a :: _ => some a
  | none :: rest => firstSome rest

/-- The `or_else` chain over the ten patterns. -/
def tryPatterns (s : String) : Option (Int × Int × Int) :=
  firstSome (formats.map (fun f => parseFormat f s))

/-! ### Rendering (`%a, %d %b %Y %H:%M:%S GMT`) -/

def padZeros (w : Nat) (ds : List Char) : List Char :=
  List.replicate (w - ds.length) '0' ++ ds

/-- `{:02}` rendering of a (nonnegative) field. -/
def pad2 (n : Int) : String := String.mk (padZeros 2 (natDigs n.toNat))

/-- chrono `%Y`: zero-padded to four digits; years outside `0..=9999` get an
explicit sign and are zero-padded to four digits after it. -/
def formatYear (y : Int) : String :=
  if 0 ≤ y ∧ y < 10000 then String.mk (padZeros 4 (natDigs y.toNat))
  else if 0 ≤ y then "+" ++ String.mk (padZeros 4 (natDigs y.toNat))
  else "-" ++ String.mk (padZeros 4 (natDigs (-y).toNat))

def shortWeekdayNames : List String :=
  ["Mon", "Tue", "Wed", "Thu", "Fri", "Sat", "Sun"]

def shortMonthNames : List String :=
  ["Jan", "Feb", "Mar", "Apr", "May", "Jun",
   "Jul", "Aug", "Sep", "Oct", "Nov", "Dec"]

def timeOfDay (h mi s : Int) : String :=
  pad2 h ++ ":" ++ pad2 mi ++ ":" ++ pad2 s

def dateHeader (y m d : Int) : String :=
  (shortWeekdayNames.getD (wdFromDays (daysFromCivil y m d)) "") ++ ", "
    ++ pad2 d ++ " " ++ (shortMonthNames.getD (m - 1).toNat "") ++ " "
    ++ formatYear y ++ " "

/-- The fixed `%a, %d %b %Y %H:%M:%S GMT` rendering of a datetime. -/
def formatDT (y m d h mi s : Int) : String :=
  dateHeader y m d ++ (timeOfDay h mi s ++ " GMT")

/-- The fixed rendering of an instant given in whole seconds since epoch. -/
def formatSecs (t : Int) : String :=
  match civilFromDays (t / 86400) with
  | (y, m, d) =>
    formatDT y m d ((t % 86400) / 3600)
      (((t % 86400) % 3600) / 60) ((t % 86400) % 60)

/-! ### The normalization function -/

def chronoMinDays : Int := daysFromCivil (-262144) 1 1
def chronoMaxDays : Int := daysFromCivil 262143 12 31

/-- `chrono::DateTime::<Utc>::from_timestamp(secs, 0)` succeeds exactly when
the day of `secs` falls within chrono's representable dates. -/
def fromTimestampOk (secs : Int) : Prop :=
  chronoMinDays ≤ secs / 86400 ∧ secs / 86400 ≤ chronoMaxDays

instance (secs : Int) : Decidable (fromTimestampOk secs) := by
  unfold fromTimestampOk; infer_instance

/-- Outcome of one call of `parse_date_or_timestamp`: a success value, the
`"Invalid Date"` error, or a panic escaping the function (the `.unwrap()` on
the integer path). -/
inductive RunResult where
  | ok (unix : Int) (utc : String)
  | invalidDate
  | panicked
deriving DecidableEq

/-- The integer branch of the source: `secs / 1000` with Rust's truncating
division, `from_timestamp(..).unwrap()`, then the fixed rendering. -/
def intPath (n : Int) : RunResult :=
  if fromTimestampOk (n.tdiv 1000) then .ok n (formatSecs (n.tdiv 1000))
  else .panicked

/-- Shallow embedding of `parse_date_or_timestamp` from `src/main.rs`. -/
def parse_date_or_timestamp (s : String) : RunResult :=
  match parseI64 s with
  | some n => intPath n
  | none =>
    match tryPatterns s with
    | some (y, m, d) =>
      .ok (daysFromCivil y m d * 86400000) (formatDT y m d 0 0 0)
    | none => .invalidDate

/-! ### Calendar round-trip -/

set_option maxHeartbeats 8000000 in
/-- Year-of-era recovery of the inverse calendar algorithm, with bounds on
the day-of-era. -/
theorem doeRecover (yoe doy : Int) (h1 : 0 ≤ yoe) (h2 : yoe ≤ 399) (h3 : 0 ≤ doy)
    (h4 : doy ≤ 364 ∨ (doy = 365 ∧ (((yoe+1) % 4 = 0 ∧ (yoe+1) % 100 ≠ 0) ∨ yoe = 399))) :
    0 ≤ yoe * 365 + yoe/4 - yoe/100 + doy ∧
    yoe * 365 + yoe/4 - yoe/100 + doy ≤ 146096 ∧
    ((yoe * 365 + yoe/4 - yoe/100 + doy)
      - (yoe * 365 + yoe/4 - yoe/100 + doy) / 1460
      + (yoe * 365 + yoe/4 - yoe/100 + doy) / 36524
      - (yoe * 365 + yoe/4 - yoe/100 + doy) / 146096) / 365 = yoe := by
  obtain ⟨c, hc1, hc2, q, hq1, hq2, t, ht1, ht2, hyoe⟩ :
      ∃ c, 0 ≤ c ∧ c ≤ 3 ∧ ∃ q, 0 ≤ q ∧ q ≤ 24 ∧ ∃ t, 0 ≤ t ∧ t ≤ 3 ∧
        yoe = 100*c + 4*q + t :=
    ⟨yoe/100, by omega, by omega, (yoe%100)/4, by omega, by omega,
      (yoe%100)%4, by omega, by omega, by omega⟩
  subst hyoe
  interval_cases c <;> interval_cases t <;> interval_cases q <;> omega

/-- Characterization of `civilFromDays` through explicitly recovered
intermediate quantities. -/
theorem civilFromDays_spec (z era doe yoe doy mp y m d : Int)
    (hz : z + 719468 = era * 146097 + doe)
    (hdoe0 : 0 ≤ doe) (hdoe1 : doe ≤ 146096)
    (hyoe : (doe - doe / 1460 + doe / 36524 - doe / 146096) / 365 = yoe)
    (hdoy : doe - (365 * yoe + yoe / 4 - yoe / 100) = doy)
    (hmp : (5 * doy + 2) / 153 = mp)
    (hd : doy - (153 * mp + 2) / 5 + 1 = d)
    (hm : (if mp < 10 then mp + 3 else mp - 9) = m)
    (hy : (if m ≤ 2 then yoe + era * 400 + 1 else yoe + era * 400) = y) :
    civilFromDays z = (y, m, d) := by
  simp only [civilFromDays]
  rw [show (z + 719468) / 146097 = era from by omega,
      show (z + 719468) % 146097 = doe from by omega,
      hyoe, hdoy, hmp, hd, hm, hy]

/-- One month of the calendar round-trip, with the month constants supplied
as hypotheses. -/
theorem rt_aux (y m d yy mp ds : Int)
    (hyy : (if m ≤ 2 then y - 1 else y) = yy)
    (hmp : (m + 9) % 12 = mp)
    (hds : (153 * mp + 2) / 5 = ds)
    (hd1 : 1 ≤ d)
    (hdoyUB : ds + d - 1 < (153 * (mp + 1) + 2) / 5)
    (hdoy : ds + d - 1 ≤ 364 ∨
      (ds + d - 1 = 365 ∧ (((yy % 400 + 1) % 4 = 0 ∧ (yy % 400 + 1) % 100 ≠ 0) ∨ yy % 400 = 399)))
    (hmBack : (if mp < 10 then mp + 3 else mp - 9) = m) :
    civilFromDays (daysFromCivil y m d) = (y, m, d) := by
  obtain ⟨hb0, hb1, hrec⟩ :=
    doeRecover (yy % 400) (ds + d - 1) (by omega) (by omega) (by omega) hdoy
  apply civilFromDays_spec (daysFromCivil y m d) (yy / 400)
      ((yy % 400) * 365 + (yy % 400) / 4 - (yy % 400) / 100 + (ds + d - 1))
      (yy % 400) (ds + d - 1) mp y m d
  · simp only [daysFromCivil, hyy, hmp, hds]; omega
  · omega
  · omega
  · exact hrec
  · omega
  · have hmpb : 0 ≤ mp ∧ mp ≤ 11 := by omega
    obtain ⟨hmpb0, hmpb1⟩ := hmpb
    interval_cases mp <;> omega
  · omega
  · exact hmBack
  · split_ifs at hyy ⊢ <;> omega

set_option maxHeartbeats 4000000 in
/-- The inverse calendar algorithm recovers every valid date. -/
theorem civil_days_roundtrip (y m d : Int) (h : validYmd y m d) :
    civilFromDays (daysFromCivil y m d) = (y, m, d) := by
  obtain ⟨hy1, hy2, hm1, hm2, hd1, hd2⟩ := h
  interval_cases m
  · exact rt_aux y 1 d (y - 1) 10 306 (by norm_num) (by decide) (by decide) hd1
      (by norm_num [daysInMonth, isLeap] at hd2; (try split_ifs at hd2) <;> omega)
      (by norm_num [daysInMonth, isLeap] at hd2; (try split_ifs at hd2) <;> omega)
      (by decide)
  · exact rt_aux y 2 d (y - 1) 11 337 (by norm_num) (by decide) (by decide) hd1
      (by norm_num [daysInMonth, isLeap] at hd2; (try split_ifs at hd2) <;> omega)
      (by norm_num [daysInMonth, isLeap] at hd2; (try split_ifs at hd2) <;> omega)
      (by decide)
  · exact rt_aux y 3 d (y) 0 0 (by norm_num) (by decide) (by decide) hd1
      (by norm_num [daysInMonth, isLeap] at hd2; (try split_ifs at hd2) <;> omega)
      (by norm_num [daysInMonth, isLeap] at hd2; (try split_ifs at hd2) <;> omega)
      (by decide)
  · exact rt_aux y 4 d (y) 1 31 (by norm_num) (by decide) (by decide) hd1
      (by norm_num [daysInMonth, isLeap] at hd2; (try split_ifs at hd2) <;> omega)
      (by norm_num [daysInMonth, isLeap] at hd2; (try split_ifs at hd2) <;> omega)
      (by decide)
  · exact rt_aux y 5 d (y) 2 61 (by norm_num) (by decide) (by decide) hd1
      (by norm_num [daysInMonth, isLeap] at hd2; (try split_ifs at hd2) <;> omega)
      (by norm_num [daysInMonth, isLeap] at hd2; (try split_ifs at hd2) <;> omega)
      (by decide)
  · exact rt_aux y 6 d (y) 3 92 (by norm_num) (by decide) (by decide) hd1
      (by norm_num [daysInMonth, isLeap] at hd2; (try split_ifs at hd2) <;> omega)
      (by norm_num [daysInMonth, isLeap] at hd2; (try split_ifs at hd2) <;> omega)
      (by decide)
  · exact rt_aux y 7 d (y) 4 122 (by norm_num) (by decide) (by decide) hd1
      (by norm_num [daysInMonth, isLeap] at hd2; (try split_ifs at hd2) <;> omega)
      (by norm_num [daysInMonth, isLeap] at hd2; (try split_ifs at hd2) <;> omega)
      (by decide)
  · exact rt_aux y 8 d (y) 5 153 (by norm_num) (by decide) (by decide) hd1
      (by norm_num [daysInMonth, isLeap] at hd2; (try split_ifs at hd2) <;> omega)
      (by norm_num [daysInMonth, isLeap] at hd2; (try split_ifs at hd2) <;> omega)
      (by decide)
  · exact rt_aux y 9 d (y) 6 184 (by norm_num) (by decide) (by decide) hd1
      (by norm_num [daysInMonth, isLeap] at hd2; (try split_ifs at hd2) <;> omega)
      (by norm_num [daysInMonth, isLeap] at hd2; (try split_ifs at hd2) <;> omega)
      (by decide)
  · exact rt_aux y 10 d (y) 7 214 (by norm_num) (by decide) (by decide) hd1
      (by norm_num [daysInMonth, isLeap] at hd2; (try split_ifs at hd2) <;> omega)
      (by norm_num [daysInMonth, isLeap] at hd2; (try split_ifs at hd2) <;> omega)
      (by decide)
  · exact rt_aux y 11 d (y) 8 245 (by norm_num) (by decide) (by decide) hd1
      (by norm_num [daysInMonth, isLeap] at hd2; (try split_ifs at hd2) <;> omega)
      (by norm_num [daysInMonth, isLeap] at hd2; (try split_ifs at hd2) <;> omega)
      (by decide)
  · exact rt_aux y 12 d (y) 9 275 (by norm_num) (by decide) (by decide) hd1
      (by norm_num [daysInMonth, isLeap] at hd2; (try split_ifs at hd2) <;> omega)
      (by norm_num [daysInMonth, isLeap] at hd2; (try split_ifs at hd2) <;> omega)
      (by decide)

/-! ### Digit-string lemmas -/

theorem digitsVal_snoc (xs : List Char) (c : Char) :
    digitsVal (xs ++ [c]) = 10 * digitsVal xs + (c.toNat - 48) := by
  simp [digitsVal, List.foldl_append]
  omega

theorem digitChar_toNat (r : Nat) (h : r < 10) : (digitChar r).toNat = 48 + r := by
  interval_cases r <;> decide

theorem isDig_digitChar (r : Nat) (h : r < 10) : isDig (digitChar r) = true := by
  interval_cases r <;> decide

theorem natDigsFuel_spec (fuel : Nat) : ∀ n, n < fuel →
    digitsVal (natDigsFuel fuel n) = n ∧ natDigsFuel fuel n ≠ [] ∧
      ∀ c ∈ natDigsFuel fuel n, isDig c = true := by
  induction fuel with
  | zero => intro n h; omega
  | succ fuel ih =>
    intro n h
    by_cases h10 : n < 10
    · simp only [natDigsFuel]
      rw [if_pos h10]
      refine ⟨?_, by simp, ?_⟩
      · simp [digitsVal]
        have := digitChar_toNat n h10
        omega
      · intro c hc
        simp only [List.mem_singleton] at hc
        subst hc
        exact isDig_digitChar n h10
    · simp only [natDigsFuel]
      rw [if_neg h10]
      obtain ⟨hv, hne, hdig⟩ := ih (n / 10) (by omega)
      refine ⟨?_, by simp, ?_⟩
      · rw [digitsVal_snoc, hv, digitChar_toNat (n % 10) (by omega)]
        omega
      · intro c hc
        rcases List.mem_append.mp hc with h1 | h1
        · exact hdig c h1
        · simp only [List.mem_singleton] at h1
          subst h1
          exact isDig_digitChar _ (by omega)

theorem natDigs_val (n : Nat) : digitsVal (natDigs n) = n :=
  (natDigsFuel_spec (n + 1) n (by omega)).1

theorem natDigs_ne_nil (n : Nat) : natDigs n ≠ [] :=
  (natDigsFuel_spec (n + 1) n (by omega)).2.1

theorem natDigs_digits (n : Nat) : ∀ c ∈ natDigs n, isDig c = true :=
  (natDigsFuel_spec (n + 1) n (by omega)).2.2

theorem natDigsFuel_len (fuel : Nat) : ∀ n k, n < fuel → 1 ≤ k → n < 10 ^ k →
    (natDigsFuel fuel n).length ≤ k := by
  induction fuel with
  | zero => intro n k h; omega
  | succ fuel ih =>
    intro n k h hk hnk
    by_cases h10 : n < 10
    · simp only [natDigsFuel]
      rw [if_pos h10]
      simpa using hk
    · obtain ⟨k2, rfl⟩ : ∃ k2, k = k2 + 1 := ⟨k - 1, by omega⟩
      have hk2 : 1 ≤ k2 := by
        by_contra hc
        have hk0 : k2 = 0 := by omega
        subst hk0
        norm_num at hnk
        omega
      simp only [natDigsFuel]
      rw [if_neg h10]
      rw [List.length_append]
      have hpow : (10 : Nat) ^ (k2 + 1) = 10 ^ k2 * 10 := pow_succ 10 k2
      rw [hpow] at hnk
      have hdiv : n / 10 < 10 ^ k2 := by omega
      have := ih (n / 10) k2 (by omega) hk2 hdiv
      simp only [List.length_singleton]
      omega

theorem natDigs_len (n k : Nat) (hk : 1 ≤ k) (h : n < 10 ^ k) :
    (natDigs n).length ≤ k :=
  natDigsFuel_len (n + 1) n k (by omega) hk h

theorem foldl_digits_lt (ds : List Char) : ∀ a : Nat, (∀ c ∈ ds, isDig c = true) →
    ds.foldl (fun a c => a * 10 + (c.toNat - 48)) a < (a + 1) * 10 ^ ds.length := by
  induction ds with
  | nil => intro a h; simp
  | cons c cs ih =>
    intro a h
    simp only [List.foldl_cons, List.length_cons]
    have hc := h c (List.mem_cons_self c cs)
    have h9 : c.toNat - 48 ≤ 9 := by simp [isDig] at hc; omega
    have hrec := ih (a * 10 + (c.toNat - 48)) (fun x hx => h x (List.mem_cons_of_mem _ hx))
    have hstep : (a * 10 + (c.toNat - 48) + 1) * 10 ^ cs.length ≤ ((a + 1) * 10) * 10 ^ cs.length :=
      Nat.mul_le_mul_right _ (by omega)
    have hpow : ((a + 1) * 10) * 10 ^ cs.length = (a + 1) * 10 ^ (cs.length + 1) := by
      rw [pow_succ]
      ring
    rw [hpow] at hstep
    exact lt_of_lt_of_le hrec hstep

theorem digitsVal_lt (ds : List Char) (h : ∀ c ∈ ds, isDig c = true) :
    digitsVal ds < 10 ^ ds.length := by
  have := foldl_digits_lt ds 0 h
  simpa [digitsVal] using this

theorem digitsVal_replicate_zero (k : Nat) (ds : List Char) :
    digitsVal (List.replicate k '0' ++ ds) = digitsVal ds := by
  induction k with
  | zero => simp
  | succ k ih =>
    rw [List.replicate_succ, List.cons_append]
    exact ih

theorem padDigs_val (w n : Nat) : digitsVal (padDigs w n) = n := by
  rw [padDigs, digitsVal_replicate_zero, natDigs_val]

theorem padDigs_digits (w n : Nat) : ∀ c ∈ padDigs w n, isDig c = true := by
  intro c hc
  rcases List.mem_append.mp hc with h1 | h1
  · rw [List.eq_of_mem_replicate h1]
    decide
  · exact natDigs_digits n c h1

theorem padDigs_length (w n : Nat) (h : (natDigs n).length ≤ w) :
    (padDigs w n).length = w := by
  rw [padDigs, List.length_append, List.length_replicate]
  omega

theorem padDigs_ne_nil (w n : Nat) : padDigs w n ≠ [] := by
  rw [padDigs]
  intro h
  rcases List.append_eq_nil.mp h with ⟨-, h2⟩
  exact natDigs_ne_nil n h2

theorem isDig_ne_plus (c : Char) (h : isDig c = true) : ¬(c = '+') := by
  intro hc
  subst hc
  exact absurd h (by decide)

theorem isDig_ne_minus (c : Char) (h : isDig c = true) : ¬(c = '-') := by
  intro hc
  subst hc
  exact absurd h (by decide)

theorem isDig_not_ws (c : Char) (h : isDig c = true) : c.isWhitespace = false := by
  rcases hw : c.isWhitespace with _ | _
  · rfl
  · exfalso
    simp only [Char.isWhitespace] at hw
    rcases Bool.or_eq_true_iff.mp hw with h1 | h1
    · rcases Bool.or_eq_true_iff.mp h1 with h2 | h2
      · rcases Bool.or_eq_true_iff.mp h2 with h3 | h3
        · rw [show c = ' ' from by exact beq_iff_eq.mp h3] at h
          exact absurd h (by decide)
        · rw [show c = '\t' from by exact beq_iff_eq.mp h3] at h
          exact absurd h (by decide)
      · rw [show c = '\r' from by exact beq_iff_eq.mp h2] at h
        exact absurd h (by decide)
    · rw [show c = '\n' from by exact beq_iff_eq.mp h1] at h
      exact absurd h (by decide)

theorem parseI64_cons (c : Char) (rest : List Char) (s : String) (h : s.data = c :: rest) :
    parseI64 s = if c = '+' then parseI64Digits false rest
      else if c = '-' then parseI64Digits true rest
      else parseI64Digits false (c :: rest) := by
  rw [parseI64, h]

theorem parseI64Digits_true (ds : List Char) (hne : ds ≠ []) (hdig : ds.all isDig = true)
    (hbound : i64Min ≤ -(digitsVal ds : Int)) :
    parseI64Digits true ds = some (-(digitsVal ds : Int)) := by
  rw [parseI64Digits, if_pos ⟨hne, hdig⟩]
  show (if i64Min ≤ -(digitsVal ds : Int) ∧ -(digitsVal ds : Int) ≤ i64Max then
      some (-(digitsVal ds : Int)) else none) = some (-(digitsVal ds : Int))
  rw [if_pos ⟨hbound, by simp only [i64Max]; omega⟩]

theorem parseI64Digits_false (ds : List Char) (hne : ds ≠ []) (hdig : ds.all isDig = true)
    (hbound : (digitsVal ds : Int) ≤ i64Max) :
    parseI64Digits false ds = some (digitsVal ds : Int) := by
  rw [parseI64Digits, if_pos ⟨hne, hdig⟩]
  show (if i64Min ≤ (digitsVal ds : Int) ∧ (digitsVal ds : Int) ≤ i64Max then
      some (digitsVal ds : Int) else none) = some (digitsVal ds : Int)
  rw [if_pos ⟨by simp only [i64Min]; omega, hbound⟩]

theorem parseI64_intToDecimal (n : Int) (h1 : i64Min ≤ n) (h2 : n ≤ i64Max) :
    parseI64 (intToDecimal n) = some n := by
  simp only [i64Min, i64Max] at h1 h2
  rcases lt_or_le n 0 with hneg | hpos
  · have hna : ((n.natAbs : Nat) : Int) = -n := Int.ofNat_natAbs_of_nonpos (le_of_lt hneg)
    have hdata : (intToDecimal n).data = '-' :: natDigs n.natAbs := by
      rw [intToDecimal, if_pos hneg]
      rfl
    rw [parseI64_cons '-' (natDigs n.natAbs) _ hdata]
    rw [if_neg (by decide), if_pos rfl]
    rw [parseI64Digits_true _ (natDigs_ne_nil _) (List.all_eq_true.mpr (natDigs_digits _))
      (by rw [natDigs_val, hna]; simp only [i64Min]; omega)]
    rw [natDigs_val, hna]
    congr 1
    omega
  · have hna : ((n.toNat : Nat) : Int) = n := Int.toNat_of_nonneg hpos
    obtain ⟨c, rest, hl⟩ : ∃ c rest, natDigs n.toNat = c :: rest := by
      rcases he : natDigs n.toNat with _ | ⟨c, rest⟩
      · exact absurd he (natDigs_ne_nil _)
      · exact ⟨c, rest, rfl⟩
    have hdata : (intToDecimal n).data = c :: rest := by
      rw [intToDecimal, if_neg (by omega)]
      exact hl
    have hdc : isDig c = true :=
      natDigs_digits n.toNat c (by rw [hl]; exact List.mem_cons_self c rest)
    rw [parseI64_cons c rest _ hdata]
    rw [if_neg (isDig_ne_plus c hdc), if_neg (isDig_ne_minus c hdc), ← hl]
    rw [parseI64Digits_false _ (natDigs_ne_nil _) (List.all_eq_true.mpr (natDigs_digits _))
      (by rw [natDigs_val, hna]; simp only [i64Max]; omega)]
    rw [natDigs_val, hna]

/-! ### Scanner lemmas -/

/-- Input shapes whose head (if any) is not a digit. -/
def NondigitHead (rest : List Char) : Prop :=
  rest = [] ∨ ∃ c cs, rest = c :: cs ∧ isDig c = false

theorem takeWhile_digits_append (ds rest : List Char) (h1 : ∀ c ∈ ds, isDig c = true)
    (h2 : NondigitHead rest) : (ds ++ rest).takeWhile isDig = ds := by
  induction ds with
  | nil =>
    rcases h2 with rfl | ⟨c, cs, rfl, hc⟩
    · rfl
    · simp [List.takeWhile_cons, hc]
  | cons c cs ih =>
    have hc := h1 c (List.mem_cons_self c cs)
    have ih2 := ih (fun x hx => h1 x (List.mem_cons_of_mem _ hx))
    simp [List.takeWhile_cons, hc, ih2]

theorem takeWhile_digits_self (cs : List Char) (h : ∀ c ∈ cs, isDig c = true) :
    cs.takeWhile isDig = cs := by
  have := takeWhile_digits_append cs [] h (Or.inl rfl)
  simpa using this

theorem scanNumber_exact (minW maxW : Nat) (ds rest : List Char)
    (h1 : ∀ c ∈ ds, isDig c = true) (hmin : minW ≤ ds.length) (hmax : ds.length ≤ maxW)
    (hrest : NondigitHead rest) (hval : (digitsVal ds : Int) ≤ i64Max) :
    scanNumber minW maxW (ds ++ rest) = some (digitsVal ds, rest) := by
  simp only [scanNumber]
  rw [takeWhile_digits_append ds rest h1 hrest, List.take_of_length_le hmax,
    if_pos ⟨hmin, hval⟩, List.drop_left]

theorem scanNumberAll_exact (ds rest : List Char)
    (h1 : ∀ c ∈ ds, isDig c = true) (hmin : 1 ≤ ds.length)
    (hrest : NondigitHead rest) (hval : (digitsVal ds : Int) ≤ i64Max) :
    scanNumberAll (ds ++ rest) = some (digitsVal ds, rest) := by
  simp only [scanNumberAll]
  rw [takeWhile_digits_append ds rest h1 hrest, if_pos ⟨hmin, hval⟩, List.drop_left]

theorem scanNumberAll_overflow (cs : List Char)
    (hval : ¬((digitsVal (cs.takeWhile isDig) : Int) ≤ i64Max)) :
    scanNumberAll cs = none := by
  simp only [scanNumberAll]
  rw [if_neg (fun h => hval h.2)]

theorem digitsVal_lt_of_len_le (ds : List Char) (k : Nat) (h : ∀ c ∈ ds, isDig c = true)
    (hl : ds.length ≤ k) : digitsVal ds < 10 ^ k :=
  lt_of_lt_of_le (digitsVal_lt ds h) (Nat.pow_le_pow_right (by norm_num) hl)

theorem trimSpace_cons_digit (c : Char) (l : List Char) (h : isDig c = true) :
    trimSpace (c :: l) = c :: l := by
  rw [trimSpace, List.dropWhile_cons_of_neg]
  rw [isDig_not_ws c h]
  simp

theorem signedLead_digit (c : Char) (l : List Char) (h : isDig c = true) :
    signedLead (c :: l) = none := by
  rw [signedLead]
  simp only [if_neg (isDig_ne_minus c h), if_neg (isDig_ne_plus c h)]

theorem numField_digits (p : Parsed) (set : Parsed → Int → Option Parsed)
    (width : Nat) (signed : Bool) (ds rest : List Char)
    (h1 : ∀ c ∈ ds, isDig c = true) (hne : ds ≠ []) (hmax : ds.length ≤ width)
    (hrest : NondigitHead rest) (hval : (digitsVal ds : Int) ≤ i64Max) :
    numField p set width signed (ds ++ rest) =
      (set p (digitsVal ds : Int)).map (fun q => (q, rest)) := by
  obtain ⟨c0, ds2, rfl⟩ : ∃ c0 ds2, ds = c0 :: ds2 := by
    rcases ds with _ | ⟨c0, ds2⟩
    · exact absurd rfl hne
    · exact ⟨c0, ds2, rfl⟩
  have hc0 : isDig c0 = true := h1 c0 (List.mem_cons_self c0 ds2)
  simp only [numField, List.cons_append]
  rw [trimSpace_cons_digit c0 _ hc0]
  have hsl : cond signed (signedLead (c0 :: (ds2 ++ rest))) none = none := by
    cases signed
    · rfl
    · exact signedLead_digit c0 _ hc0
  rw [hsl]
  have hsn := scanNumber_exact 1 width (c0 :: ds2) rest h1 (by simp) hmax hrest hval
  rw [List.cons_append] at hsn
  rw [hsn]

/-! ### The first pattern on canonical date strings -/

theorem runItems_cons (it : Item) (its : List Item) (p : Parsed) (cs : List Char) :
    runItems (it :: its) p cs =
      match stepItem it p cs with
      | some (p2, cs2) => runItems its p2 cs2
      | none => none := rfl

theorem stepItem_lit (c : Char) (p : Parsed) (rest : List Char) :
    stepItem (.lit c) p (c :: rest) = some (p, rest) := by
  simp [stepItem]

theorem ymdString_data (y m d : Int) :
    (ymdString y m d).data =
      padDigs 4 y.toNat ++ '-' :: (padDigs 2 m.toNat ++ '-' :: padDigs 2 d.toNat) := rfl

theorem parseI64_ymdString (y m d : Int) :
    parseI64 (ymdString y m d) = none := by
  obtain ⟨c0, cs0, hds⟩ : ∃ c0 cs0, padDigs 4 y.toNat = c0 :: cs0 := by
    rcases he : padDigs 4 y.toNat with _ | ⟨c0, cs0⟩
    · exact absurd he (padDigs_ne_nil 4 _)
    · exact ⟨c0, cs0, rfl⟩
  have hc0 : isDig c0 = true :=
    padDigs_digits 4 y.toNat c0 (by rw [hds]; exact List.mem_cons_self c0 cs0)
  have hdata : (ymdString y m d).data =
      c0 :: (cs0 ++ '-' :: (padDigs 2 m.toNat ++ '-' :: padDigs 2 d.toNat)) := by
    rw [ymdString_data, hds]
    rfl
  rw [parseI64_cons _ _ _ hdata, if_neg (isDig_ne_plus _ hc0), if_neg (isDig_ne_minus _ hc0)]
  rw [parseI64Digits, if_neg]
  intro hh
  have hmem : ('-' : Char) ∈ c0 :: (cs0 ++ '-' :: (padDigs 2 m.toNat ++ '-' :: padDigs 2 d.toNat)) := by
    apply List.mem_cons_of_mem
    apply List.mem_append_right
    exact List.mem_cons_self _ _
  have := List.all_eq_true.mp hh.2 '-' hmem
  exact absurd this (by decide)

theorem parseFormat_fmt1_ymd (y m d : Int) (hy : 0 ≤ y) (hy2 : y ≤ 9999)
    (hm : 1 ≤ m) (hm2 : m ≤ 12) (hd : 1 ≤ d) (hd2 : d ≤ 31)
    (hv : validYmd y m d) :
    parseFormat fmt1 (ymdString y m d) = some (y, m, d) := by
  have hY : ((y.toNat : Nat) : Int) = y := Int.toNat_of_nonneg hy
  have hM : ((m.toNat : Nat) : Int) = m := Int.toNat_of_nonneg (by omega)
  have hD : ((d.toNat : Nat) : Int) = d := Int.toNat_of_nonneg (by omega)
  have hYlen : (padDigs 4 y.toNat).length = 4 :=
    padDigs_length 4 _ (natDigs_len _ 4 (by norm_num) (by norm_num; omega))
  have hMlen : (padDigs 2 m.toNat).length = 2 :=
    padDigs_length 2 _ (natDigs_len _ 2 (by norm_num) (by norm_num; omega))
  have hDlen : (padDigs 2 d.toNat).length = 2 :=
    padDigs_length 2 _ (natDigs_len _ 2 (by norm_num) (by norm_num; omega))
  have h1 : stepItem .numYear {}
      (padDigs 4 y.toNat ++ '-' :: (padDigs 2 m.toNat ++ '-' :: padDigs 2 d.toNat)) =
      some ({ year := some y }, '-' :: (padDigs 2 m.toNat ++ '-' :: padDigs 2 d.toNat)) := by
    show numField {} Parsed.setYear 4 true _ = _
    rw [numField_digits _ _ _ _ _ _ (padDigs_digits 4 y.toNat) (padDigs_ne_nil 4 _)
      (le_of_eq hYlen) (Or.inr ⟨'-', _, rfl, by decide⟩)
      (by rw [padDigs_val, hY]; simp only [i64Max]; omega)]
    rw [padDigs_val, hY, Parsed.setYear, if_pos (by constructor <;> omega)]
    rfl
  have h3 : stepItem .numMonth ({ year := some y } : Parsed)
      (padDigs 2 m.toNat ++ '-' :: padDigs 2 d.toNat) =
      some ({ year := some y, month := some m }, '-' :: padDigs 2 d.toNat) := by
    show numField _ Parsed.setMonth 2 false _ = _
    rw [numField_digits _ _ _ _ _ _ (padDigs_digits 2 m.toNat) (padDigs_ne_nil 2 _)
      (le_of_eq hMlen) (Or.inr ⟨'-', _, rfl, by decide⟩)
      (by rw [padDigs_val, hM]; simp only [i64Max]; omega)]
    rw [padDigs_val, hM, Parsed.setMonth, if_pos (by constructor <;> omega)]
    rfl
  have h5 : stepItem .numDay ({ year := some y, month := some m } : Parsed)
      (padDigs 2 d.toNat) =
      some ({ year := some y, month := some m, day := some d }, []) := by
    show numField _ Parsed.setDay 2 false _ = _
    have := numField_digits ({ year := some y, month := some m } : Parsed) Parsed.setDay
      2 false (padDigs 2 d.toNat) [] (padDigs_digits 2 d.toNat) (padDigs_ne_nil 2 _)
      (le_of_eq hDlen) (Or.inl rfl)
      (by rw [padDigs_val, hD]; simp only [i64Max]; omega)
    rw [List.append_nil] at this
    rw [this]
    rw [padDigs_val, hD, Parsed.setDay, if_pos (by constructor <;> omega)]
    rfl
  have hrun : runItems fmt1 {} (ymdString y m d).data =
      some ({ year := some y, month := some m, day := some d }, []) := by
    rw [ymdString_data]
    show runItems [.numYear, .lit '-', .numMonth, .lit '-', .numDay] {} _ = _
    simp only [runItems_cons, h1, h3, h5, stepItem_lit, runItems]
  rw [parseFormat, hrun]
  show toNaiveDate { year := some y, month := some m, day := some d } = some (y, m, d)
  rw [toNaiveDate]
  show (if validYmd y m d then some (y, m, d) else none) = some (y, m, d)
  rw [if_pos hv]

/-! ### Pattern-list lemmas -/

theorem firstSome_cons_some {α : Type} (a : α) (l : List (Option α)) :
    firstSome (some a :: l) = some a := rfl

theorem firstSome_cons_none {α : Type} (l : List (Option α)) :
    firstSome (none :: l) = firstSome l := rfl

theorem firstSome_mem {α : Type} (l : List (Option α)) (a : α)
    (h : firstSome l = some a) : some a ∈ l := by
  induction l with
  | nil => exact absurd h (by simp [firstSome])
  | cons x l ih =>
    rcases x with _ | b
    · exact List.mem_cons_of_mem _ (ih h)
    · rw [firstSome_cons_some] at h
      rw [← h]
      exact List.mem_cons_self _ _

theorem firstSome_of_earlier_none {α : Type} (l : List (Option α)) (i : Nat) (a : α)
    (h1 : l[i]? = some (some a))
    (h2 : ∀ j, j < i → ∀ x, l[j]? = some x → x = none) :
    firstSome l = some a := by
  induction l generalizing i with
  | nil => simp at h1
  | cons x l ih =>
    rcases i with _ | i
    · simp at h1
      rw [h1]
      rfl
    · have hx : x = none := h2 0 (Nat.succ_pos i) x (by simp)
      subst hx
      rw [firstSome_cons_none]
      exact ih i (by simpa using h1)
        (fun j hj z hz => h2 (j + 1) (by omega) z (by simpa using hz))

theorem toNaiveDate_valid (p : Parsed) (y m d : Int)
    (h : toNaiveDate p = some (y, m, d)) : validYmd y m d := by
  rw [toNaiveDate] at h
  split at h
  · rename_i y0 m0 d0 hy0 hm0 hd0
    by_cases hv : validYmd y0 m0 d0
    · rw [if_pos hv] at h
      split at h
      · rename_i w hw
        split at h
        · simp only [Option.some.injEq, Prod.mk.injEq] at h
          obtain ⟨rfl, rfl, rfl⟩ := h
          exact hv
        · exact absurd h (by simp)
      · simp only [Option.some.injEq, Prod.mk.injEq] at h
        obtain ⟨rfl, rfl, rfl⟩ := h
        exact hv
    · rw [if_neg hv] at h
      exact absurd h (by simp)
  · exact absurd h (by simp)

theorem parseFormat_valid (f : List Item) (s : String) (y m d : Int)
    (h : parseFormat f s = some (y, m, d)) : validYmd y m d := by
  rw [parseFormat] at h
  split at h
  · exact toNaiveDate_valid _ _ _ _ h
  · exact absurd h (by simp)

theorem tryPatterns_valid (s : String) (y m d : Int)
    (h : tryPatterns s = some (y, m, d)) : validYmd y m d := by
  rw [tryPatterns] at h
  have hmem := firstSome_mem _ _ h
  rw [List.mem_map] at hmem
  obtain ⟨f, -, hf⟩ := hmem
  exact parseFormat_valid f s y m d hf

theorem tryPatterns_fmt1 (s : String) (r : Int × Int × Int)
    (h : parseFormat fmt1 s = some r) : tryPatterns s = some r := by
  rw [tryPatterns]
  show firstSome (parseFormat fmt1 s :: List.map (fun f => parseFormat f s)
    [fmt2, fmt3, fmt4, fmt5, fmt6, fmt7, fmt8, fmt9, fmt10]) = some r
  rw [h]
  rfl

/-! ### Top-level case lemmas -/

theorem parse_eq_intPath (s : String) (n : Int) (h : parseI64 s = some n) :
    parse_date_or_timestamp s = intPath n := by
  rw [parse_date_or_timestamp, h]

theorem parse_eq_pattern (s : String) (y m d : Int)
    (h1 : parseI64 s = none) (h2 : tryPatterns s = some (y, m, d)) :
    parse_date_or_timestamp s =
      .ok (daysFromCivil y m d * 86400000) (formatDT y m d 0 0 0) := by
  rw [parse_date_or_timestamp, h1, h2]

theorem parse_eq_invalid (s : String)
    (h1 : parseI64 s = none) (h2 : tryPatterns s = none) :
    parse_date_or_timestamp s = .invalidDate := by
  rw [parse_date_or_timestamp, h1, h2]

/-! ### Pattern failure on numeric strings -/

theorem parseI64Digits_false_out (ds : List Char) (hne : ds ≠ []) (hdig : ds.all isDig = true)
    (h : ¬((digitsVal ds : Int) ≤ i64Max)) : parseI64Digits false ds = none := by
  rw [parseI64Digits, if_pos ⟨hne, hdig⟩]
  show (if i64Min ≤ (digitsVal ds : Int) ∧ (digitsVal ds : Int) ≤ i64Max then
      some (digitsVal ds : Int) else none) = none
  rw [if_neg (fun hh => h hh.2)]

theorem parseI64Digits_true_out (ds : List Char) (hne : ds ≠ []) (hdig : ds.all isDig = true)
    (h : ¬(i64Min ≤ -(digitsVal ds : Int))) : parseI64Digits true ds = none := by
  rw [parseI64Digits, if_pos ⟨hne, hdig⟩]
  show (if i64Min ≤ -(digitsVal ds : Int) ∧ -(digitsVal ds : Int) ≤ i64Max then
      some (-(digitsVal ds : Int)) else none) = none
  rw [if_neg (fun hh => h hh.1)]

theorem lowered_eq_self_of_le57 (c : Char) (h : c.toNat ≤ 57) : lowered c = c := by
  rw [lowered, if_neg (by omega)]

theorem matchCI_low_head (p : Char) (ps : List Char) (c : Char) (cs : List Char)
    (hc : c.toNat ≤ 57) (hp : 97 ≤ p.toNat) :
    matchCI (p :: ps) (c :: cs) = none := by
  rw [matchCI.eq_def]
  show (if lowered c = p then matchCI ps cs else none) = none
  rw [if_neg]
  intro h
  have := congrArg Char.toNat h
  rw [lowered_eq_self_of_le57 c hc] at this
  omega

theorem findMatch_low_head (pats : List (List Char)) (i : Nat) (c : Char) (cs : List Char)
    (hc : c.toNat ≤ 57)
    (hp : ∀ p ∈ pats, ∃ c0 cs0, p = c0 :: cs0 ∧ 97 ≤ c0.toNat) :
    findMatch pats i (c :: cs) = none := by
  induction pats generalizing i with
  | nil => rfl
  | cons p ps ih =>
    obtain ⟨c0, cs0, rfl, hc0⟩ := hp p (List.mem_cons_self p ps)
    rw [findMatch, matchCI_low_head c0 cs0 c cs hc hc0]
    exact ih (i + 1) (fun q hq => hp q (List.mem_cons_of_mem _ hq))

theorem monthAbbrevs_heads : ∀ p ∈ monthAbbrevs, ∃ c0 cs0, p = c0 :: cs0 ∧ 97 ≤ c0.toNat := by
  intro p hp
  rw [monthAbbrevs] at hp
  rw [List.mem_cons] at hp
  rcases hp with rfl | hp
  · exact ⟨_, _, rfl, by decide⟩
  rw [List.mem_cons] at hp
  rcases hp with rfl | hp
  · exact ⟨_, _, rfl, by decide⟩
  rw [List.mem_cons] at hp
  rcases hp with rfl | hp
  · exact ⟨_, _, rfl, by decide⟩
  rw [List.mem_cons] at hp
  rcases hp with rfl | hp
  · exact ⟨_, _, rfl, by decide⟩
  rw [List.mem_cons] at hp
  rcases hp with rfl | hp
  · exact ⟨_, _, rfl, by decide⟩
  rw [List.mem_cons] at hp
  rcases hp with rfl | hp
  · exact ⟨_, _, rfl, by decide⟩
  rw [List.mem_cons] at hp
  rcases hp with rfl | hp
  · exact ⟨_, _, rfl, by decide⟩
  rw [List.mem_cons] at hp
  rcases hp with rfl | hp
  · exact ⟨_, _, rfl, by decide⟩
  rw [List.mem_cons] at hp
  rcases hp with rfl | hp
  · exact ⟨_, _, rfl, by decide⟩
  rw [List.mem_cons] at hp
  rcases hp with rfl | hp
  · exact ⟨_, _, rfl, by decide⟩
  rw [List.mem_cons] at hp
  rcases hp with rfl | hp
  · exact ⟨_, _, rfl, by decide⟩
  rw [List.mem_cons] at hp
  rcases hp with rfl | hp
  · exact ⟨_, _, rfl, by decide⟩
  exact absurd hp (List.not_mem_nil p)

theorem weekdayAbbrevs_heads : ∀ p ∈ weekdayAbbrevs, ∃ c0 cs0, p = c0 :: cs0 ∧ 97 ≤ c0.toNat := by
  intro p hp
  rw [weekdayAbbrevs] at hp
  rw [List.mem_cons] at hp
  rcases hp with rfl | hp
  · exact ⟨_, _, rfl, by decide⟩
  rw [List.mem_cons] at hp
  rcases hp with rfl | hp
  · exact ⟨_, _, rfl, by decide⟩
  rw [List.mem_cons] at hp
  rcases hp with rfl | hp
  · exact ⟨_, _, rfl, by decide⟩
  rw [List.mem_cons] at hp
  rcases hp with rfl | hp
  · exact ⟨_, _, rfl, by decide⟩
  rw [List.mem_cons] at hp
  rcases hp with rfl | hp
  · exact ⟨_, _, rfl, by decide⟩
  rw [List.mem_cons] at hp
  rcases hp with rfl | hp
  · exact ⟨_, _, rfl, by decide⟩
  rw [List.mem_cons] at hp
  rcases hp with rfl | hp
  · exact ⟨_, _, rfl, by decide⟩
  exact absurd hp (List.not_mem_nil p)

theorem scanShortWeekday_low_head (c : Char) (cs : List Char) (hc : c.toNat ≤ 57) :
    scanShortWeekday (c :: cs) = none :=
  findMatch_low_head weekdayAbbrevs 0 c cs hc weekdayAbbrevs_heads

theorem scanShortMonth_low_head (c : Char) (cs : List Char) (hc : c.toNat ≤ 57) :
    scanShortMonth (c :: cs) = none :=
  findMatch_low_head monthAbbrevs 0 c cs hc monthAbbrevs_heads

theorem scanLongMonth_low_head (c : Char) (cs : List Char) (hc : c.toNat ≤ 57) :
    scanLongMonth (c :: cs) = none := by
  rw [scanLongMonth, scanShortMonth_low_head c cs hc]

theorem stepItem_lit_fail (c c' : Char) (p : Parsed) (rest : List Char) (h : ¬(c' = c)) :
    stepItem (.lit c) p (c' :: rest) = none := by
  simp [stepItem, h]

theorem stepItem_lit_nil (c : Char) (p : Parsed) : stepItem (.lit c) p [] = none := rfl

theorem scanNumber_one (maxW : Nat) (cs : List Char) (hmw : 1 ≤ maxW)
    (h1 : ∀ c ∈ cs, isDig c = true) (hne : cs ≠ [])
    (hval : (digitsVal (cs.take maxW) : Int) ≤ i64Max) :
    scanNumber 1 maxW cs = some (digitsVal (cs.take maxW), cs.drop (min maxW cs.length)) := by
  simp only [scanNumber]
  rw [takeWhile_digits_self cs h1]
  have hlen : (cs.take maxW).length = min maxW cs.length := List.length_take maxW cs
  rw [if_pos ⟨by rw [hlen]; have : cs.length ≠ 0 := fun hh => hne (List.eq_nil_of_length_eq_zero hh); omega, hval⟩, hlen]

theorem scanNumber_nondigit_head (minW maxW : Nat) (c : Char) (cs : List Char)
    (hmin : 1 ≤ minW) (hc : isDig c = false) :
    scanNumber minW maxW (c :: cs) = none := by
  simp only [scanNumber]
  rw [List.takeWhile_cons_of_neg (by simp [hc])]
  rw [if_neg]
  simp
  omega

theorem trimSpace_cons_not_ws (c : Char) (l : List Char) (h : c.isWhitespace = false) :
    trimSpace (c :: l) = c :: l := by
  rw [trimSpace, List.dropWhile_cons_of_neg]
  simp [h]

theorem exists_cons_of_ne_nil {α : Type} (l : List α) (h : l ≠ []) :
    ∃ c cs, l = c :: cs := by
  rcases l with _ | ⟨c, cs⟩
  · exact absurd rfl h
  · exact ⟨c, cs, rfl⟩

theorem isDig_le57 (c : Char) (h : isDig c = true) : c.toNat ≤ 57 := by
  simp [isDig] at h
  omega

theorem stepItem_numYear (p : Parsed) (cs : List Char) :
    stepItem .numYear p cs = numField p Parsed.setYear 4 true cs := rfl

theorem stepItem_numDay (p : Parsed) (cs : List Char) :
    stepItem .numDay p cs = numField p Parsed.setDay 2 false cs := rfl

theorem stepItem_space (p : Parsed) (cs : List Char) :
    stepItem .space p cs = some (p, trimSpace cs) := rfl

theorem stepItem_shortWeekdayName_none (p : Parsed) (cs : List Char)
    (h : scanShortWeekday cs = none) : stepItem .shortWeekdayName p cs = none := by
  simp only [stepItem, h]

theorem stepItem_longMonthName_none (p : Parsed) (cs : List Char)
    (h : scanLongMonth cs = none) : stepItem .longMonthName p cs = none := by
  simp only [stepItem, h]

theorem numField_all_digits (p : Parsed) (set : Parsed → Int → Option Parsed)
    (width : Nat) (signed : Bool) (c : Char) (rest : List Char)
    (hw : 1 ≤ width) (hdig : ∀ x ∈ c :: rest, isDig x = true)
    (hval : (digitsVal ((c :: rest).take width) : Int) ≤ i64Max) :
    numField p set width signed (c :: rest) =
      (set p (digitsVal ((c :: rest).take width) : Int)).map
        (fun q => (q, (c :: rest).drop (min width (c :: rest).length))) := by
  have hc : isDig c = true := hdig c (List.mem_cons_self c rest)
  simp only [numField]
  rw [trimSpace_cons_digit c _ hc]
  have hif : cond signed (signedLead (c :: rest)) none = none := by
    cases signed
    · rfl
    · exact signedLead_digit c _ hc
  rw [hif, scanNumber_one width (c :: rest) hw hdig (by simp) hval]

theorem numField_false_nondigit (p : Parsed) (set : Parsed → Int → Option Parsed)
    (width : Nat) (c : Char) (rest : List Char)
    (hc : isDig c = false) (hcw : c.isWhitespace = false) :
    numField p set width false (c :: rest) = none := by
  simp only [numField]
  rw [trimSpace_cons_not_ws _ _ hcw]
  have hif : cond false (signedLead (c :: rest)) none = none := rfl
  rw [hif, scanNumber_nondigit_head 1 width c rest (by norm_num) hc]

theorem numField_signed_overflow (p : Parsed) (set : Parsed → Int → Option Parsed)
    (width : Nat) (c : Char) (ds : List Char)
    (hsign : c = '+' ∨ c = '-') (hdig : ∀ x ∈ ds, isDig x = true)
    (hbig : ¬((digitsVal ds : Int) ≤ i64Max)) :
    numField p set width true (c :: ds) = none := by
  have hover : scanNumberAll ds = none := by
    apply scanNumberAll_overflow
    rw [takeWhile_digits_self ds hdig]
    exact hbig
  simp only [numField]
  rcases hsign with rfl | rfl
  · rw [trimSpace_cons_not_ws _ _ (by decide)]
    have hif : cond true (signedLead ('+' :: ds)) none = some (false, ds) := by
      show signedLead ('+' :: ds) = some (false, ds)
      rw [signedLead]
      rw [if_neg (by decide), if_pos rfl]
    simp only [hif, hover]
  · rw [trimSpace_cons_not_ws _ _ (by decide)]
    have hif : cond true (signedLead ('-' :: ds)) none = some (true, ds) := by
      show signedLead ('-' :: ds) = some (true, ds)
      rw [signedLead]
      rw [if_pos rfl]
    simp only [hif, hover]

theorem digitsVal_take_le (cs : List Char) (w : Nat) (bound : Nat)
    (hdig : ∀ x ∈ cs, isDig x = true) (hb : (10 : Nat) ^ w ≤ bound) :
    digitsVal (cs.take w) < bound := by
  have h1 := digitsVal_lt_of_len_le (cs.take w) w
    (fun x hx => hdig x (List.mem_of_mem_take hx))
    (by rw [List.length_take]; omega)
  omega

/-- `numYear` then a `'-'` literal fails on an unsigned all-digit input. -/
theorem runItems_year_dash_digits (its : List Item) (c : Char) (rest : List Char)
    (hdig : ∀ x ∈ c :: rest, isDig x = true) :
    runItems (.numYear :: .lit '-' :: its) {} (c :: rest) = none := by
  have hval : (digitsVal ((c :: rest).take 4) : Int) ≤ i64Max := by
    have := digitsVal_take_le (c :: rest) 4 10000 hdig (by norm_num)
    simp only [i64Max]
    omega
  have hstep := numField_all_digits {} Parsed.setYear 4 true c rest (by norm_num) hdig hval
  rw [runItems_cons, stepItem_numYear, hstep]
  rcases hsy : Parsed.setYear {} (digitsVal ((c :: rest).take 4) : Int) with _ | p2
  · simp
  · simp only [Option.map_some']
    show runItems (.lit '-' :: its) p2 ((c :: rest).drop (min 4 (c :: rest).length)) = none
    rw [runItems_cons]
    rcases le_or_lt ((c :: rest).length) 4 with h4 | h4
    · rw [show min 4 (c :: rest).length = (c :: rest).length from by omega,
        List.drop_length, stepItem_lit_nil]
    · have h44 : min 4 (c :: rest).length = 4 := by omega
      rw [h44, List.drop_eq_getElem_cons h4]
      have hd4 : isDig ((c :: rest)[4]) = true := hdig _ (List.getElem_mem h4)
      rw [stepItem_lit_fail _ _ _ _ (isDig_ne_minus _ hd4)]

/-- `numYear` fails on a signed input whose digit run overflows `i64`. -/
theorem runItems_year_signed_overflow (its : List Item) (c : Char) (ds : List Char)
    (hsign : c = '+' ∨ c = '-') (hdig : ∀ x ∈ ds, isDig x = true)
    (hbig : ¬((digitsVal ds : Int) ≤ i64Max)) :
    runItems (.numYear :: its) {} (c :: ds) = none := by
  rw [runItems_cons, stepItem_numYear,
    numField_signed_overflow {} Parsed.setYear 4 c ds hsign hdig hbig]

/-- `fmt6` fails on any numeric (possibly signed) input. -/
theorem runItems_fmt6_num (sign : List Char) (ds : List Char)
    (hsign : sign = [] ∨ sign = ['+'] ∨ sign = ['-'])
    (hne : ds ≠ []) (hdig : ∀ x ∈ ds, isDig x = true) :
    runItems fmt6 {} (sign ++ ds) = none := by
  rcases hsign with rfl | rfl | rfl
  · rw [List.nil_append]
    obtain ⟨c, rest, rfl⟩ := exists_cons_of_ne_nil ds hne
    have hval : (digitsVal ((c :: rest).take 2) : Int) ≤ i64Max := by
      have := digitsVal_take_le (c :: rest) 2 100 hdig (by norm_num)
      simp only [i64Max]
      omega
    have hstep := numField_all_digits {} Parsed.setDay 2 false c rest (by norm_num) hdig hval
    show runItems (.numDay :: [.space, .longMonthName, .space, .numYear, .lit ',', .space, .tzName])
      {} (c :: rest) = none
    rw [runItems_cons, stepItem_numDay, hstep]
    rcases hsd : Parsed.setDay {} (digitsVal ((c :: rest).take 2) : Int) with _ | p2
    · simp
    · simp only [Option.map_some']
      show runItems ([.space, .longMonthName, .space, .numYear, .lit ',', .space, .tzName])
        p2 ((c :: rest).drop (min 2 (c :: rest).length)) = none
      rw [runItems_cons, stepItem_space]
      rcases le_or_lt ((c :: rest).length) 2 with h2 | h2
      · rw [show min 2 (c :: rest).length = (c :: rest).length from by omega, List.drop_length]
        show runItems [.longMonthName, .space, .numYear, .lit ',', .space, .tzName] p2 (trimSpace []) = none
        rw [show trimSpace ([] : List Char) = [] from rfl]
        rw [runItems_cons, stepItem_longMonthName_none _ _ (by decide)]
      · have h22 : min 2 (c :: rest).length = 2 := by omega
        rw [h22, List.drop_eq_getElem_cons h2]
        have hd2 : isDig ((c :: rest)[2]) = true := hdig _ (List.getElem_mem h2)
        show runItems [.longMonthName, .space, .numYear, .lit ',', .space, .tzName] p2
          (trimSpace ((c :: rest)[2] :: (c :: rest).drop 3)) = none
        rw [trimSpace_cons_digit _ _ hd2]
        rw [runItems_cons,
          stepItem_longMonthName_none _ _ (scanLongMonth_low_head _ _ (isDig_le57 _ hd2))]
  · rw [show (['+'] ++ ds : List Char) = '+' :: ds from rfl]
    show runItems (.numDay :: _) {} ('+' :: ds) = none
    rw [runItems_cons, stepItem_numDay,
      numField_false_nondigit {} Parsed.setDay 2 '+' ds (by decide) (by decide)]
  · rw [show (['-'] ++ ds : List Char) = '-' :: ds from rfl]
    show runItems (.numDay :: _) {} ('-' :: ds) = none
    rw [runItems_cons, stepItem_numDay,
      numField_false_nondigit {} Parsed.setDay 2 '-' ds (by decide) (by decide)]

/-- A weekday-name pattern fails on any numeric (possibly signed) head. -/
theorem runItems_wd_head_num (its : List Item) (c : Char) (cs : List Char)
    (hc : c.toNat ≤ 57) :
    runItems (.shortWeekdayName :: its) {} (c :: cs) = none := by
  rw [runItems_cons, stepItem_shortWeekdayName_none _ _ (scanShortWeekday_low_head c cs hc)]

theorem firstSome_none {α : Type} (l : List (Option α)) (h : ∀ x ∈ l, x = none) :
    firstSome l = none := by
  induction l with
  | nil => rfl
  | cons x l ih =>
    rw [h x (List.mem_cons_self x l), firstSome_cons_none]
    exact ih (fun y hy => h y (List.mem_cons_of_mem _ hy))

theorem parseFormat_none_of (f : List Item) (s : String)
    (h : runItems f {} s.data = none) : parseFormat f s = none := by
  rw [parseFormat, h]

theorem digitsVal_big_of_out (sign ds : List Char)
    (hsign : sign = [] ∨ sign = ['+'] ∨ sign = ['-'])
    (hout : ¬(i64Min ≤ signedValue sign ds ∧ signedValue sign ds ≤ i64Max)) :
    ¬((digitsVal ds : Int) ≤ i64Max) := by
  rcases hsign with rfl | rfl | rfl
  · rw [signedValue, if_neg (by simp)] at hout
    simp only [i64Min, i64Max] at hout ⊢
    omega
  · rw [signedValue, if_neg (by simp)] at hout
    simp only [i64Min, i64Max] at hout ⊢
    omega
  · rw [signedValue, if_pos rfl] at hout
    simp only [i64Min, i64Max] at hout ⊢
    omega

theorem parseI64_num_out (s : String) (sign ds : List Char)
    (hdata : s.data = sign ++ ds)
    (hsign : sign = [] ∨ sign = ['+'] ∨ sign = ['-'])
    (hne : ds ≠ []) (hdig : ∀ x ∈ ds, isDig x = true)
    (hout : ¬(i64Min ≤ signedValue sign ds ∧ signedValue sign ds ≤ i64Max)) :
    parseI64 s = none := by
  have hall : ds.all isDig = true := List.all_eq_true.mpr hdig
  rcases hsign with rfl | rfl | rfl
  · rw [signedValue, if_neg (by simp)] at hout
    rw [List.nil_append] at hdata
    obtain ⟨c, rest, rfl⟩ := exists_cons_of_ne_nil ds hne
    have hc : isDig c = true := hdig c (List.mem_cons_self c rest)
    rw [parseI64_cons c rest s hdata, if_neg (isDig_ne_plus _ hc), if_neg (isDig_ne_minus _ hc)]
    apply parseI64Digits_false_out _ (by simp) hall
    intro hle
    exact hout ⟨by simp only [i64Min]; omega, hle⟩
  · rw [signedValue, if_neg (by simp)] at hout
    rw [parseI64_cons '+' ds s hdata, if_pos rfl]
    apply parseI64Digits_false_out _ hne hall
    intro hle
    exact hout ⟨by simp only [i64Min]; omega, hle⟩
  · rw [signedValue, if_pos rfl] at hout
    rw [parseI64_cons '-' ds s hdata, if_neg (by decide), if_pos rfl]
    apply parseI64Digits_true_out _ hne hall
    intro hge
    exact hout ⟨hge, by simp only [i64Max]; omega⟩

theorem tryPatterns_num_out (s : String) (sign ds : List Char)
    (hdata : s.data = sign ++ ds)
    (hsign : sign = [] ∨ sign = ['+'] ∨ sign = ['-'])
    (hne : ds ≠ []) (hdig : ∀ x ∈ ds, isDig x = true)
    (hbig : ¬((digitsVal ds : Int) ≤ i64Max)) :
    tryPatterns s = none := by
  have hfail : ∀ f ∈ formats, parseFormat f s = none := by
    intro f hf
    apply parseFormat_none_of
    rw [hdata]
    have hyd : ∀ its : List Item, sign = [] →
        runItems (.numYear :: .lit '-' :: its) {} (sign ++ ds) = none := by
      intro its hs
      subst hs
      rw [List.nil_append]
      obtain ⟨c, rest, rfl⟩ := exists_cons_of_ne_nil ds hne
      exact runItems_year_dash_digits its c rest hdig
    have hysign : ∀ its : List Item, sign = ['+'] ∨ sign = ['-'] →
        runItems (.numYear :: its) {} (sign ++ ds) = none := by
      intro its hs
      rcases hs with rfl | rfl
      · exact runItems_year_signed_overflow its '+' ds (Or.inl rfl) hdig hbig
      · exact runItems_year_signed_overflow its '-' ds (Or.inr rfl) hdig hbig
    have hwd : ∀ its : List Item,
        runItems (.shortWeekdayName :: its) {} (sign ++ ds) = none := by
      intro its
      rcases hsign with rfl | rfl | rfl
      · rw [List.nil_append]
        obtain ⟨c, rest, rfl⟩ := exists_cons_of_ne_nil ds hne
        exact runItems_wd_head_num its c rest (isDig_le57 c (hdig c (List.mem_cons_self c rest)))
      · exact runItems_wd_head_num its '+' ds (by decide)
      · exact runItems_wd_head_num its '-' ds (by decide)
    simp only [formats, List.mem_cons, List.not_mem_nil, or_false] at hf
    have hydAll : ∀ its : List Item,
        runItems (.numYear :: .lit '-' :: its) {} (sign ++ ds) = none := by
      intro its
      rcases hsign with hs | hs
      · exact hyd its hs
      · exact hysign (.lit '-' :: its) hs
    rcases hf with rfl | rfl | rfl | rfl | rfl | rfl | rfl | rfl | rfl | rfl
    · exact hydAll [.numMonth, .lit '-', .numDay]
    · exact hydAll [.numMonth, .lit '-', .numDay, .lit 'T', .numHour, .lit ':', .numMinute,
        .lit ':', .numSecond]
    · exact hydAll [.numMonth, .lit '-', .numDay, .lit 'T', .numHour, .lit ':', .numMinute,
        .lit ':', .numSecond, .nano]
    · exact hydAll [.numMonth, .lit '-', .numDay, .lit 'T', .numHour, .lit ':', .numMinute,
        .lit ':', .numSecond, .nano, .lit 'Z']
    · exact hydAll [.numMonth, .lit '-', .numDay, .lit 'T', .numHour, .lit ':', .numMinute,
        .lit ':', .numSecond, .nano, .tzOffset]
    · exact runItems_fmt6_num sign ds hsign hne hdig
    · exact hwd [.space, .shortMonthName, .space, .numDay, .space, .numYear,
        .space, .numHour, .lit ':', .numMinute, .lit ':', .numSecond,
        .space, .lit 'G', .lit 'M', .lit 'T', .tzOffset]
    · exact hwd [.space, .shortMonthName, .space, .numDay, .space, .numYear,
        .space, .numHour, .lit ':', .numMinute, .lit ':', .numSecond,
        .space, .tzOffset]
    · exact hwd [.space, .shortMonthName, .space, .numDay, .space, .numYear,
        .space, .numHour, .lit ':', .numMinute, .lit ':', .numSecond,
        .space, .lit 'G', .lit 'M', .lit 'T', .tzOffset, .space, .lit '(', .tzName, .lit ')']
    · exact hwd [.space, .shortMonthName, .space, .numDay, .space, .numYear,
        .space, .numHour, .lit ':', .numMinute, .lit ':', .numSecond,
        .space, .tzOffset, .space, .lit '(', .tzName, .lit ')']
  rw [tryPatterns]
  apply firstSome_none
  intro x hx
  rw [List.mem_map] at hx
  obtain ⟨f, hf, rfl⟩ := hx
  exact hfail f hf

/-! ### Rendering facts -/

theorem daysInMonth_le_31 (y m : Int) : daysInMonth y m ≤ 31 := by
  rw [daysInMonth]
  split_ifs <;> omega

theorem midnight_tdiv (D : Int) : (D * 86400000).tdiv 1000 = D * 86400 := by
  have h : D * 86400000 = (D * 86400) * 1000 := by ring
  rw [h, Int.mul_tdiv_cancel _ (by norm_num)]

/-- The rendering of the midnight instant of a valid date agrees with the
field-based rendering of the date at `00:00:00`. -/
theorem formatSecs_midnight (y m d : Int) (hv : validYmd y m d) :
    formatSecs (daysFromCivil y m d * 86400) = formatDT y m d 0 0 0 := by
  have h1 : (daysFromCivil y m d * 86400) / 86400 = daysFromCivil y m d := by omega
  have h2 : (daysFromCivil y m d * 86400) % 86400 = 0 := by omega
  rw [formatSecs, h1, h2, civil_days_roundtrip y m d hv]
  norm_num

/-! ### The claims -/

/-- C1 (amended): for every decimal rendering of a signed 64-bit integer `n`
whose truncated quotient `n / 1000` stays within chrono's representable
seconds, `parse_date_or_timestamp` succeeds with `unix = n` and `utc` the
fixed-format rendering of the instant at `n / 1000` (Rust division,
truncation toward zero) seconds since the epoch; in particular `"0"` gives
unix `0` and utc `"Thu, 01 Jan 1970 00:00:00 GMT"`. -/
theorem c1_integer_inputs (n : Int) (h1 : i64Min ≤ n) (h2 : n ≤ i64Max)
    (h3 : fromTimestampOk (n.tdiv 1000)) :
    parse_date_or_timestamp (intToDecimal n) =
      RunResult.ok n (formatSecs (n.tdiv 1000)) ∧
    parse_date_or_timestamp "0" =
      RunResult.ok 0 "Thu, 01 Jan 1970 00:00:00 GMT" := by
  constructor
  · rw [parse_eq_intPath _ n (parseI64_intToDecimal n h1 h2), intPath, if_pos h3]
  · decide

/-- C1, counterexample to the claim as stated: at the rendering of `-1` the
code does not produce the rendering of `floor(-1 / 1000) = -1` seconds (it
truncates toward zero instead, producing the epoch instant). -/
theorem c1_counterexample :
    parse_date_or_timestamp (intToDecimal (-1)) ≠
      RunResult.ok (-1) (formatSecs (Int.fdiv (-1) 1000)) := by
  decide

/-- C1, witness. -/
theorem c1_witness :
    i64Min ≤ (0 : Int) ∧ (0 : Int) ≤ i64Max ∧ fromTimestampOk ((0 : Int).tdiv 1000) ∧
    (parse_date_or_timestamp (intToDecimal 0) =
        RunResult.ok 0 (formatSecs ((0 : Int).tdiv 1000)) ∧
      parse_date_or_timestamp "0" =
        RunResult.ok 0 "Thu, 01 Jan 1970 00:00:00 GMT") :=
  ⟨by decide, by decide, by decide, c1_integer_inputs 0 (by decide) (by decide) (by decide)⟩

/-- C3: the integer path of the source unwraps
`DateTime::from_timestamp(secs / 1000, 0)`, which is `None` for seconds
beyond chrono's representable dates, so the input `"9223372036854775807"`
makes the function panic instead of returning the error value. -/
theorem c3_panic_on_extreme_timestamp :
    parse_date_or_timestamp "9223372036854775807" = RunResult.panicked := by
  decide

/-- C4: parsing is ordered and first-match-wins: a successful integer parse
decides the result by the integer path alone, and otherwise the result of the
pattern list is the interpretation of the first syntactically matching
pattern, regardless of later patterns. -/
theorem c4_first_match_wins (s : String) :
    (∀ n : Int, parseI64 s = some n → parse_date_or_timestamp s = intPath n) ∧
    (parseI64 s = none → ∀ (i : Nat) (f : List Item) (y m d : Int),
      formats[i]? = some f → parseFormat f s = some (y, m, d) →
      (∀ j fj, j < i → formats[j]? = some fj → parseFormat fj s = none) →
      parse_date_or_timestamp s =
        RunResult.ok (daysFromCivil y m d * 86400000) (formatDT y m d 0 0 0)) := by
  constructor
  · intro n hn
    exact parse_eq_intPath s n hn
  · intro h0 i f y m d hif hpf hearlier
    apply parse_eq_pattern s y m d h0
    rw [tryPatterns]
    apply firstSome_of_earlier_none _ i
    · rw [List.getElem?_map, hif]
      simp [hpf]
    · intro j hj x hx
      rw [List.getElem?_map] at hx
      rcases hfj : formats[j]? with _ | fj
      · rw [hfj] at hx
        simp at hx
      · rw [hfj] at hx
        simp at hx
        rw [← hx]
        exact hearlier j fj hj hfj

/-- C4, witness: `"2015-10-21T07:28:00"` fails the first pattern, matches the
second, and the result is the second pattern's interpretation. -/
theorem c4_witness :
    parseI64 "2015-10-21T07:28:00" = none ∧
    formats[1]? = some fmt2 ∧
    parseFormat fmt2 "2015-10-21T07:28:00" = some (2015, 10, 21) ∧
    parse_date_or_timestamp "2015-10-21T07:28:00" =
      RunResult.ok (daysFromCivil 2015 10 21 * 86400000) (formatDT 2015 10 21 0 0 0) := by
  refine ⟨by decide, by decide, by decide,
    (c4_first_match_wins _).2 (by decide) 1 fmt2 2015 10 21 (by decide) (by decide) ?_⟩
  intro j fj hj hfj
  have hj0 : j = 0 := by omega
  subst hj0
  rw [show formats[0]? = some fmt1 from rfl] at hfj
  have : fmt1 = fj := Option.some.inj hfj
  rw [← this]
  decide

/-- C6: every valid canonical `YYYY-MM-DD` string is normalized to midnight
UTC of that date, with the utc time component `00:00:00`; in particular
`"2015-10-21"` yields unix `1445385600000` and utc
`"Wed, 21 Oct 2015 00:00:00 GMT"`. -/
theorem c6_ymd_strings :
    (∀ y m d : Int, 0 ≤ y → y ≤ 9999 → validYmd y m d →
      parse_date_or_timestamp (ymdString y m d) =
        RunResult.ok (daysFromCivil y m d * 86400000) (formatDT y m d 0 0 0) ∧
      formatDT y m d 0 0 0 = dateHeader y m d ++ "00:00:00 GMT") ∧
    parse_date_or_timestamp "2015-10-21" =
      RunResult.ok 1445385600000 "Wed, 21 Oct 2015 00:00:00 GMT" := by
  constructor
  · intro y m d hy0 hy9 hv
    obtain ⟨hy1, hy2, hm1, hm2, hd1, hd2⟩ := hv
    have hd31 : d ≤ 31 := le_trans hd2 (daysInMonth_le_31 y m)
    refine ⟨?_, by rw [formatDT, show timeOfDay 0 0 0 ++ " GMT" = "00:00:00 GMT" from by decide]⟩
    apply parse_eq_pattern _ y m d (parseI64_ymdString y m d)
    exact tryPatterns_fmt1 _ _
      (parseFormat_fmt1_ymd y m d hy0 hy9 hm1 hm2 hd1 hd31 ⟨hy1, hy2, hm1, hm2, hd1, hd2⟩)
  · decide

/-- C6, witness. -/
theorem c6_witness :
    (0 : Int) ≤ 2015 ∧ (2015 : Int) ≤ 9999 ∧ validYmd 2015 10 21 ∧
    (parse_date_or_timestamp (ymdString 2015 10 21) =
        RunResult.ok (daysFromCivil 2015 10 21 * 86400000) (formatDT 2015 10 21 0 0 0) ∧
      formatDT 2015 10 21 0 0 0 = dateHeader 2015 10 21 ++ "00:00:00 GMT") :=
  ⟨by decide, by decide, by decide,
    c6_ymd_strings.1 2015 10 21 (by decide) (by decide) (by decide)⟩

/-- C7: every successful result has its utc string equal to the fixed-format
rendering of the instant `unix / 1000` seconds since the epoch (Rust
division: sub-second precision discarded by truncation toward zero), on both
the integer path and the date-pattern path. -/
theorem c7_unix_utc_agree (s : String) (u : Int) (utc : String)
    (h : parse_date_or_timestamp s = RunResult.ok u utc) :
    utc = formatSecs (u.tdiv 1000) := by
  rcases hp : parseI64 s with _ | n
  · rcases ht : tryPatterns s with _ | r
    · rw [parse_eq_invalid s hp ht] at h
      exact RunResult.noConfusion h
    · obtain ⟨y, m, d⟩ := r
      rw [parse_eq_pattern s y m d hp ht] at h
      injection h with hu hutc
      subst hu
      subst hutc
      rw [midnight_tdiv, formatSecs_midnight y m d (tryPatterns_valid s y m d ht)]
  · rw [parse_eq_intPath s n hp, intPath] at h
    by_cases hok : fromTimestampOk (n.tdiv 1000)
    · rw [if_pos hok] at h
      injection h with hu hutc
      subst hu
      exact hutc.symm
    · rw [if_neg hok] at h
      exact RunResult.noConfusion h

/-- C7, witness. -/
theorem c7_witness :
    ("Thu, 01 Jan 1970 00:00:00 GMT" : String) = formatSecs ((0 : Int).tdiv 1000) :=
  c7_unix_utc_agree "0" 0 "Thu, 01 Jan 1970 00:00:00 GMT" (by decide)

/-- C8: for every date-only input accepted by the pattern list, re-rendering
the returned unix value through the fixed-format rendering reproduces the
returned utc string exactly. -/
theorem c8_roundtrip (s : String) (y m d u : Int) (utc : String)
    (h1 : parseI64 s = none) (h2 : tryPatterns s = some (y, m, d))
    (h3 : parse_date_or_timestamp s = RunResult.ok u utc) :
    formatSecs (u.tdiv 1000) = utc := by
  rw [parse_eq_pattern s y m d h1 h2] at h3
  injection h3 with hu hutc
  subst hu
  subst hutc
  rw [midnight_tdiv, formatSecs_midnight y m d (tryPatterns_valid s y m d h2)]

/-- C8, witness. -/
theorem c8_witness :
    parseI64 "2015-10-21" = none ∧
    tryPatterns "2015-10-21" = some (2015, 10, 21) ∧
    parse_date_or_timestamp "2015-10-21" =
      RunResult.ok 1445385600000 "Wed, 21 Oct 2015 00:00:00 GMT" ∧
    formatSecs ((1445385600000 : Int).tdiv 1000) = "Wed, 21 Oct 2015 00:00:00 GMT" :=
  ⟨by decide, by decide, by decide,
    c8_roundtrip "2015-10-21" 2015 10 21 1445385600000 "Wed, 21 Oct 2015 00:00:00 GMT"
      (by decide) (by decide) (by decide)⟩

/-- C9: the embedded function is deterministic and stateless: the outcome is
a function of the input string alone, so equal inputs give equal results, in
any order and with any other invocations in between. -/
theorem c9_deterministic (s t : String) (h : s = t) :
    parse_date_or_timestamp s = parse_date_or_timestamp t := by
  rw [h]

/-- C9, witness. -/
theorem c9_witness :
    parse_date_or_timestamp "0" = parse_date_or_timestamp "0" :=
  c9_deterministic "0" "0" rfl

/-- C10: an optionally sign-prefixed digit string whose value lies outside
the signed 64-bit range is not treated as a timestamp: the integer parse
fails, no date pattern matches, and the call returns the invalid-date error. -/
theorem c10_overflow_not_timestamp (s : String) (sign ds : List Char)
    (hdata : s.data = sign ++ ds)
    (hsign : sign = [] ∨ sign = ['+'] ∨ sign = ['-'])
    (hne : ds ≠ []) (hdig : ∀ c ∈ ds, isDig c = true)
    (hout : ¬(i64Min ≤ signedValue sign ds ∧ signedValue sign ds ≤ i64Max)) :
    parseI64 s = none ∧ tryPatterns s = none ∧
      parse_date_or_timestamp s = RunResult.invalidDate := by
  have h1 := parseI64_num_out s sign ds hdata hsign hne hdig hout
  have h2 := tryPatterns_num_out s sign ds hdata hsign hne hdig
    (digitsVal_big_of_out sign ds hsign hout)
  exact ⟨h1, h2, parse_eq_invalid s h1 h2⟩

/-- C10, witness. -/
theorem c10_witness :
    ("99999999999999999999" : String).data =
      [] ++ ['9','9','9','9','9','9','9','9','9','9','9','9','9','9','9','9','9','9','9','9'] ∧
    (([] : List Char) = [] ∨ ([] : List Char) = ['+'] ∨ ([] : List Char) = ['-']) ∧
    (['9','9','9','9','9','9','9','9','9','9','9','9','9','9','9','9','9','9','9','9'] : List Char) ≠ [] ∧
    (∀ c ∈ (['9','9','9','9','9','9','9','9','9','9','9','9','9','9','9','9','9','9','9','9'] : List Char),
      isDig c = true) ∧
    ¬(i64Min ≤ signedValue [] ['9','9','9','9','9','9','9','9','9','9','9','9','9','9','9','9','9','9','9','9'] ∧
      signedValue [] ['9','9','9','9','9','9','9','9','9','9','9','9','9','9','9','9','9','9','9','9'] ≤ i64Max) ∧
    (parseI64 "99999999999999999999" = none ∧
      tryPatterns "99999999999999999999" = none ∧
      parse_date_or_timestamp "99999999999999999999" = RunResult.invalidDate) :=
  ⟨by decide, by decide, by decide, by decide, by decide,
    c10_overflow_not_timestamp "99999999999999999999" []
      ['9','9','9','9','9','9','9','9','9','9','9','9','9','9','9','9','9','9','9','9']
      (by decide) (by decide) (by decide) (by decide) (by decide)⟩

end TimestampService
